import Mathlib

/-!
Shallow embedding of the `llm-intent-benchmark` repository: the aggregation
and winner-selection core of `src/analyze_results.py` (function
`analyze_log_file`) and the attempt-failure recovery of the record producer
in `src/run_tests.py` (function `main` together with
`run_intent_classification_http`).

Numeric values (`confidence`, `duration`, Brier scores) are embedded as
rationals; Python's `round(x, n)` is embedded as exact round-half-to-even
on rationals.  Python dictionaries preserve insertion order, so the
`defaultdict` tables of the source are embedded as association lists in
first-appearance order.
-/

namespace IntentBench

/-- A raw attempt record as parsed from one JSONL line of the durable log.
The fields `intent`, `confidence` and `duration` may be absent from the
line, which the source reads via `r.get(key, default)`. -/
structure RawRecord where
  model : String
  category : String
  query : String
  intent : Option String
  confidence : Option ℚ
  duration : Option ℚ
  deriving Repr, DecidableEq

/-- A normalized attempt record, with the documented defaults applied:
`intent` defaults to "unknown", `confidence` and `duration` to 0. -/
structure Record where
  model : String
  category : String
  query : String
  intent : String
  confidence : ℚ
  duration : ℚ
  deriving Repr, DecidableEq

/-- Record normalization: applies the defaults used by the source at
`analyze_results.py` lines 44-46 (`r.get('intent', 'unknown')`,
`r.get('confidence', 0.0)`, `r.get('duration', 0.0)`). -/
def normalize (r : RawRecord) : Record :=
  { model := r.model
    category := r.category
    query := r.query
    intent := r.intent.getD "unknown"
    confidence := r.confidence.getD 0
    duration := r.duration.getD 0 }

/-- Correctness indicator of `analyze_results.py` line 48:
`1 if true_intent == predicted_intent else 0` (exact, case-sensitive). -/
def isCorrect (r : Record) : ℕ :=
  if r.category = r.intent then 1 else 0

/-- Per-record calibration (Brier) score of `analyze_results.py` line 49:
`(confidence - is_correct)**2`. -/
def brierScore (r : Record) : ℚ :=
  (r.confidence - (isCorrect r : ℚ)) ^ 2

/-- The running statistics kept per group by the source
(`analyze_results.py` lines 38-39): the default value of the
`defaultdict` entries. -/
structure Stats where
  brierScores : List ℚ
  correctCount : ℕ
  totalCount : ℕ
  durations : List ℚ
  deriving Repr, DecidableEq

/-- The fresh statistics record a `defaultdict` access creates. -/
def emptyStats : Stats :=
  { brierScores := [], correctCount := 0, totalCount := 0, durations := [] }

/-- One record's contribution to a group's statistics
(`analyze_results.py` lines 52-63). -/
def addToStats (s : Stats) (b : ℚ) (c : ℕ) (d : ℚ) : Stats :=
  { brierScores := s.brierScores ++ [b]
    correctCount := s.correctCount + c
    totalCount := s.totalCount + 1
    durations := s.durations ++ [d] }

/-- Update an insertion-ordered association list of per-model statistics at
`key`, creating a fresh default entry at the end when the key is new —
exactly how a Python `defaultdict` access-then-mutate behaves. -/
def updStats (key : String) (b : ℚ) (c : ℕ) (d : ℚ) :
    List (String × Stats) → List (String × Stats)
  | [] => [(key, addToStats emptyStats b c d)]
  | (k, s) :: rest =>
      if k = key then (k, addToStats s b c d) :: rest
      else (k, s) :: updStats key b c d rest

/-- Update the nested category → model → statistics table at
`(cat, model)`, creating entries on demand like the nested `defaultdict`
of `analyze_results.py` line 38. -/
def updCat (cat model : String) (b : ℚ) (c : ℕ) (d : ℚ) :
    List (String × List (String × Stats)) →
      List (String × List (String × Stats))
  | [] => [(cat, updStats model b c d [])]
  | (k, ms) :: rest =>
      if k = cat then (k, updStats model b c d ms) :: rest
      else (k, ms) :: updCat cat model b c d rest

/-- The aggregation state after some prefix of the record list:
`category_model_stats` and `overall_model_stats` of
`analyze_results.py` lines 38-39. -/
structure AggState where
  catStats : List (String × List (String × Stats))
  overallStats : List (String × Stats)
  deriving Repr, DecidableEq

/-- One iteration of the aggregation loop of `analyze_results.py`
lines 41-63, reading the optional fields with their defaults exactly as
the source does. -/
def aggStep (st : AggState) (r : RawRecord) : AggState :=
  let model := r.model
  let trueIntent := r.category
  let predictedIntent := r.intent.getD "unknown"
  let confidence := r.confidence.getD 0
  let duration := r.duration.getD 0
  let c : ℕ := if trueIntent = predictedIntent then 1 else 0
  let b : ℚ := (confidence - (c : ℚ)) ^ 2
  { catStats := updCat trueIntent model b c duration st.catStats
    overallStats := updStats model b c duration st.overallStats }

/-- Folding the whole record list into the two statistics tables
(`analyze_results.py` lines 41-63). -/
def aggregate (rs : List RawRecord) : AggState :=
  rs.foldl aggStep { catStats := [], overallStats := [] }

/-- Average Brier score of a group, `analyze_results.py` lines 77, 99 and
121: `sum(brier_scores)/len(brier_scores) if brier_scores else float('inf')`;
`none` stands for `float('inf')`. -/
def avgBrier (s : Stats) : Option ℚ :=
  if s.brierScores.isEmpty then none
  else some (s.brierScores.sum / (s.brierScores.length : ℚ))

/-- Strict comparison `a < b` on average scores where `none` is
`float('inf')`: mirrors Python's `avg_brier < lowest_brier_score` with the
IEEE rule that `inf < x` is false and `x < inf` is true for finite `x`. -/
def ltOptInf (a b : Option ℚ) : Bool :=
  match a, b with
  | none, _ => false
  | some _, none => true
  | some x, some y => decide (x < y)

/-- Non-strict companion order `a ≤ b` on average scores where `none` is
`float('inf')`: used to state minimality of the selected winner. -/
def leOptInf (a b : Option ℚ) : Bool :=
  match a, b with
  | _, none => true
  | none, some _ => false
  | some x, some y => decide (x ≤ y)

/-- One iteration of the winner-selection loop (`analyze_results.py`
lines 76-80 and 98-102): the leader is replaced only on a strictly lower
average score. -/
def selStep (acc : Option String × Option ℚ) (p : String × Stats) :
    Option String × Option ℚ :=
  if ltOptInf (avgBrier p.2) acc.2 then (some p.1, avgBrier p.2) else acc

/-- Winner selection over a group list (`analyze_results.py` lines 73-80
and 95-102): starts from `best_model = None`, `lowest = float('inf')` and
folds `selStep` over the models in iteration order. -/
def selectWinner (ms : List (String × Stats)) : Option String × Option ℚ :=
  ms.foldl selStep (none, none)

/-- First-match lookup in an association list of per-model statistics
(a Python dict subscript). -/
def lookupS (key : String) : List (String × Stats) → Option Stats
  | [] => none
  | (k, s) :: rest => if k = key then some s else lookupS key rest

/-- Round-half-to-even on an exact rational, the idealization of Python's
`round` on one integer output. -/
def roundHalfEven (q : ℚ) : ℤ :=
  if q - ⌊q⌋ < 1/2 then ⌊q⌋
  else if 1/2 < q - ⌊q⌋ then ⌊q⌋ + 1
  else if 2 ∣ ⌊q⌋ then ⌊q⌋ else ⌊q⌋ + 1

/-- Python's `round(q, n)` on exact rationals. -/
def roundTo (n : ℕ) (q : ℚ) : ℚ :=
  (roundHalfEven (q * 10 ^ n) : ℚ) / 10 ^ n

/-- A per-category winner entry of the summary (`analyze_results.py`
lines 87-92) and the overall-winner entry (lines 109-114), which carry the
same four values. -/
structure WinnerEntry where
  best_model : String
  brier_score : ℚ
  accuracy : ℚ
  average_duration : ℚ
  deriving Repr, DecidableEq

/-- Accuracy of a group: `correct_count / total_count if total_count > 0
else 0` (`analyze_results.py` lines 84, 106, 128). -/
def statAccuracy (s : Stats) : ℚ :=
  if 0 < s.totalCount then (s.correctCount : ℚ) / (s.totalCount : ℚ) else 0

/-- Average duration of a group: `sum(durations)/len(durations) if
durations else 0` (`analyze_results.py` lines 85, 107, 122). -/
def statAvgDuration (s : Stats) : ℚ :=
  if s.durations.isEmpty then 0
  else s.durations.sum / (s.durations.length : ℚ)

/-- Build the winner entry for one scope (`analyze_results.py` lines 82-92
for a category, 104-114 overall): the winner is kept only when
`best_model` is truthy in Python, i.e. a non-empty string; `winner_stats`
is looked up back in the table. -/
def winnerEntry (ms : List (String × Stats)) : Option WinnerEntry :=
  match selectWinner ms with
  | (some bm, some lowest) =>
      if bm.isEmpty then none
      else
        match lookupS bm ms with
        | some ws =>
            some { best_model := bm
                   brier_score := roundTo 4 lowest
                   accuracy := roundTo 4 (statAccuracy ws)
                   average_duration := roundTo 2 (statAvgDuration ws) }
        | none => none
  | _ => none

/-- One row of `model_performance_summary` (`analyze_results.py`
lines 124-131).  `brier_score` is `none` when the group has no scores,
standing for the `float('inf')` that `round` would pass through. -/
structure TableRow where
  model : String
  correct_predictions : ℕ
  incorrect_predictions : ℕ
  accuracy : ℚ
  brier_score : Option ℚ
  average_duration : ℚ
  deriving Repr, DecidableEq

/-- Build one summary-table row for a model (`analyze_results.py`
lines 119-131). -/
def mkRow (m : String) (s : Stats) : TableRow :=
  { model := m
    correct_predictions := s.correctCount
    incorrect_predictions := s.totalCount - s.correctCount
    accuracy := roundTo 4 (statAccuracy s)
    brier_score := (avgBrier s).map (roundTo 4)
    average_duration := roundTo 2 (statAvgDuration s) }

/-- Key order used by Python's `sorted(overall_model_stats.items())`:
the dict keys are distinct, so the tuple comparison is decided by the
model identifier. -/
def keyLe (a b : String × Stats) : Prop := a.1 ≤ b.1

instance : DecidableRel keyLe := fun a b => by
  unfold keyLe; infer_instance

instance : IsTotal (String × Stats) keyLe :=
  ⟨fun a b => le_total a.1 b.1⟩

instance : IsTrans (String × Stats) keyLe :=
  ⟨fun _ _ _ h₁ h₂ => le_trans h₁ h₂⟩

/-- The summary table: rows sorted lexicographically by model identifier
(`analyze_results.py` line 118, `sorted(overall_model_stats.items())`). -/
def summaryTable (overall : List (String × Stats)) : List TableRow :=
  (overall.insertionSort keyLe).map (fun p => mkRow p.1 p.2)

/-- The structured summary document (`analyze_results.py` lines 65-69):
`per_category` maps category names to winner entries in insertion order,
`overall_winner` is absent when the dict stays empty, and
`model_performance_summary` is the sorted table. -/
structure Summary where
  per_category : List (String × WinnerEntry)
  overall_winner : Option WinnerEntry
  model_performance_summary : List TableRow
  deriving Repr, DecidableEq

/-- Assemble the whole summary from the record list (`analyze_results.py`
lines 37-132). -/
def buildSummary (rs : List RawRecord) : Summary :=
  let st := aggregate rs
  { per_category :=
      st.catStats.filterMap (fun p => (winnerEntry p.2).map (fun e => (p.1, e)))
    overall_winner := winnerEntry st.overallStats
    model_performance_summary := summaryTable st.overallStats }

/-- Observable outcome of one run of `analyze_log_file`: a `sys.exit`
with a status code and no summary file, the empty-log diagnostic with a
normal return and no summary file, or a summary file written with the
given contents. -/
inductive Outcome where
  | exit (code : ℕ)
  | emptyNothing
  | summaryWritten (s : Summary)
  deriving Repr, DecidableEq

/-- Parse all lines of the log, stopping at the first unparseable line
with a `MalformedRecord` error naming it: the list comprehension
`[json.loads(line) for line in f]` of `analyze_results.py` line 25
propagates the first `JSONDecodeError` and never yields a partial list.
The per-line parser is a parameter: it is the standard-library JSON
decoder, external to this repository. -/
def ingest (parseLine : String → Option RawRecord) :
    List String → Except String (List RawRecord)
  | [] => Except.ok []
  | line :: rest =>
      match parseLine line with
      | none => Except.error line
      | some r =>
          match ingest parseLine rest with
          | Except.error l => Except.error l
          | Except.ok rs => Except.ok (r :: rs)

/-- The whole `analyze_log_file` control flow (`analyze_results.py`
lines 17-143): a missing file exits with status 1, an unparseable line
exits with status 1, an empty result list returns normally with the
"nothing to analyze" diagnostic, and otherwise the summary is built and
written.  The file is `none` when it does not exist, otherwise its list
of lines. -/
def analyzeLogFile (file : Option (List String))
    (parseLine : String → Option RawRecord) : Outcome :=
  match file with
  | none => Outcome.exit 1
  | some lines =>
      match ingest parseLine lines with
      | Except.error _ => Outcome.exit 1
      | Except.ok rs =>
          if rs.isEmpty then Outcome.emptyNothing
          else Outcome.summaryWritten (buildSummary rs)

/-- The aggregation step expressed on a normalized record: the same
update as `aggStep`, with correctness and the Brier score computed from
the already-defaulted fields. -/
def aggStepRecord (st : AggState) (r : Record) : AggState :=
  { catStats :=
      updCat r.category r.model (brierScore r) (isCorrect r) r.duration st.catStats
    overallStats :=
      updStats r.model (brierScore r) (isCorrect r) r.duration st.overallStats }

/-- Sum of the `total_count` fields over a per-model statistics table. -/
def totalSum (l : List (String × Stats)) : ℕ :=
  (l.map (fun p => p.2.totalCount)).sum

/-- Sum of the `total_count` fields over the nested per-category table. -/
def catTotalSum (t : List (String × List (String × Stats))) : ℕ :=
  (t.map (fun p => totalSum p.2)).sum

/-- The per-model accumulation step used to characterize what `aggregate`
stores for a single model: one record folded into that model's optional
statistics entry. -/
def modelStep (o : Option Stats) (r : RawRecord) : Option Stats :=
  some (addToStats (o.getD emptyStats) (brierScore (normalize r))
    (isCorrect (normalize r)) (normalize r).duration)

/-! Producer side: `src/run_tests.py`. -/

/-- Outcome of one HTTP call made by `run_intent_classification_http`
(`run_tests.py` lines 61-75): either the request raised or timed out, or
it returned a response text together with the measured duration. -/
inductive CallResult where
  | failure
  | success (response : String) (duration : ℚ)
  deriving Repr, DecidableEq

/-- One benchmark attempt of the producer loop (`run_tests.py`
lines 182-186): a (model, category, query) triple together with the
outcome of its HTTP call. -/
structure Attempt where
  model : String
  category : String
  query : String
  result : CallResult
  deriving Repr, DecidableEq

/-- A Python value as returned by the standard-library `json.loads`:
a string, a number, a boolean, `None`, a list, or a dict with
insertion-ordered string keys. -/
inductive PyVal where
  | pstr (s : String)
  | pnum (q : ℚ)
  | pbool (b : Bool)
  | pnone
  | plist (elems : List PyVal)
  | pdict (fields : List (String × PyVal))

/-- Python `dict.get(key)`: `none` when the key is absent. -/
def lookupPy (key : String) : List (String × PyVal) → Option PyVal
  | [] => none
  | (k, v) :: rest => if k = key then some v else lookupPy key rest

/-- Python `float(x)` on a decoded JSON value: numbers and booleans
convert, a string converts when it spells a number (the string
conversion is a parameter: it is the standard-library `float`, external
to this repository), and `None`, lists and dicts raise
`TypeError`/`ValueError`, here `none`. -/
def pyFloat (toFloat : String → Option ℚ) : PyVal → Option ℚ
  | PyVal.pnum q => some q
  | PyVal.pbool b => some (if b then 1 else 0)
  | PyVal.pstr s => toFloat s
  | _ => none

/-- The record one attempt writes to the log (`run_tests.py`
lines 202-210).  The `intent` field carries whatever value
`parsed.get('intent', 'unknown')` produced — the source never checks
that it is a string. -/
structure ProdRecord where
  model : String
  category : String
  query : String
  intent : PyVal
  confidence : ℚ
  duration : ℚ

/-- Observable outcome of one attempt of the producer loop: the attempt
is skipped (no record, loop continues), a record is written (loop
continues), or an uncaught exception crashes the producer. -/
inductive AttemptOutcome where
  | skip
  | emit (r : ProdRecord)
  | crash

/-- One attempt of the producer loop (`run_tests.py` lines 186-210):
a failed or timed-out call returns `(None, 0)` and is skipped
(`continue`); otherwise the response text is fed to `json.loads` (a
parameter: the standard-library decoder).  A `json.JSONDecodeError` is
caught and recorded with the sentinel label "error" and confidence 0 —
that is the only exception lines 191-200 catch: a decoded value that is
not a dict crashes on `parsed.get` (`AttributeError`), and a present,
non-`None` confidence value that `float` cannot convert crashes on
`float(raw_confidence)` (`ValueError`/`TypeError`).  A decoded dict
with a convertible (or absent, or `None`) confidence is recorded with
`intent` defaulting to "unknown" and confidence defaulting to 0. -/
def attemptStep (loads : String → Option PyVal) (toFloat : String → Option ℚ)
    (model category query : String) (call : CallResult) : AttemptOutcome :=
  match call with
  | CallResult.failure => AttemptOutcome.skip
  | CallResult.success text dur =>
      match loads text with
      | none =>
          AttemptOutcome.emit
            { model := model, category := category, query := query
              intent := PyVal.pstr "error", confidence := 0
              duration := roundTo 2 dur }
      | some (PyVal.pdict fields) =>
          let intent := (lookupPy "intent" fields).getD (PyVal.pstr "unknown")
          match lookupPy "confidence" fields with
          | none =>
              AttemptOutcome.emit
                { model := model, category := category, query := query
                  intent := intent, confidence := 0
                  duration := roundTo 2 dur }
          | some PyVal.pnone =>
              AttemptOutcome.emit
                { model := model, category := category, query := query
                  intent := intent, confidence := 0
                  duration := roundTo 2 dur }
          | some v =>
              match pyFloat toFloat v with
              | some q =>
                  AttemptOutcome.emit
                    { model := model, category := category, query := query
                      intent := intent, confidence := q
                      duration := roundTo 2 dur }
              | none => AttemptOutcome.crash
      | some _ => AttemptOutcome.crash

/-- The producer loop over its attempts (`run_tests.py` lines 181-210):
attempts are processed in order, each record is appended to the log as
it is produced, and an uncaught exception stops the run — records
written before the crash persist, later attempts never run.  Returns
the records written from this point on and whether the run completed. -/
def producerRun (loads : String → Option PyVal)
    (toFloat : String → Option ℚ) :
    List Attempt → List ProdRecord × Bool
  | [] => ([], true)
  | a :: rest =>
      match attemptStep loads toFloat a.model a.category a.query a.result with
      | AttemptOutcome.skip => producerRun loads toFloat rest
      | AttemptOutcome.emit r =>
          (r :: (producerRun loads toFloat rest).1,
           (producerRun loads toFloat rest).2)
      | AttemptOutcome.crash => ([], false)

/-! JSON document model for the written summary (`analyze_results.py`
lines 139-142, `json.dump(summary, f, indent=4)`). -/

/-- A JSON value as written by `json.dump`: strings, numbers, the
`Infinity` token Python emits for `float('inf')`, arrays and objects
with insertion-ordered fields. -/
inductive Json where
  | str (s : String)
  | num (q : ℚ)
  | inf
  | arr (elems : List Json)
  | obj (fields : List (String × Json))

/-- Serialization of a per-category winner entry, with the field names of
`analyze_results.py` lines 87-92. -/
def catEntryToJson (e : WinnerEntry) : Json :=
  Json.obj [("best_model", Json.str e.best_model),
            ("brier_score", Json.num e.brier_score),
            ("accuracy", Json.num e.accuracy),
            ("average_duration", Json.num e.average_duration)]

/-- Serialization of the overall winner, with the field names of
`analyze_results.py` lines 109-114; the empty dict is written when no
winner was set. -/
def overallToJson : Option WinnerEntry → Json
  | none => Json.obj []
  | some e =>
      Json.obj [("model", Json.str e.best_model),
                ("brier_score", Json.num e.brier_score),
                ("accuracy", Json.num e.accuracy),
                ("average_duration", Json.num e.average_duration)]

/-- Serialization of an optional average Brier score: `round` passes
`float('inf')` through and `json.dump` writes it as `Infinity`. -/
def brierToJson : Option ℚ → Json
  | some q => Json.num q
  | none => Json.inf

/-- Serialization of one summary-table row, with the field names of
`analyze_results.py` lines 124-131. -/
def rowToJson (r : TableRow) : Json :=
  Json.obj [("model", Json.str r.model),
            ("correct_predictions", Json.num (r.correct_predictions : ℚ)),
            ("incorrect_predictions", Json.num (r.incorrect_predictions : ℚ)),
            ("accuracy", Json.num r.accuracy),
            ("brier_score", brierToJson r.brier_score),
            ("average_duration", Json.num r.average_duration)]

/-- Serialization of the whole summary document (`analyze_results.py`
lines 65-69 and 139-142). -/
def Summary.toJson (s : Summary) : Json :=
  Json.obj
    [("per_category",
        Json.obj (s.per_category.map (fun p => (p.1, catEntryToJson p.2)))),
     ("overall_winner", overallToJson s.overall_winner),
     ("model_performance_summary",
        Json.arr (s.model_performance_summary.map rowToJson))]

/-- Modelled from the spec: re-parsing a number that stands for a count
(`correct_predictions`, `incorrect_predictions`) recovers the natural
number the document carries; the repository has no summary reader. -/
def natFromJson : Json → Option ℕ
  | Json.num q => if q = (q.num.toNat : ℚ) then some q.num.toNat else none
  | _ => none

/-- Modelled from the spec: reader for one per-category winner entry of
the summary document (field names and types as in the spec's summary
document interface); the repository has no summary reader. -/
def catEntryFromJson : Json → Option WinnerEntry
  | Json.obj [("best_model", Json.str bm),
              ("brier_score", Json.num bs),
              ("accuracy", Json.num acc),
              ("average_duration", Json.num ad)] =>
      some { best_model := bm, brier_score := bs
             accuracy := acc, average_duration := ad }
  | _ => none

/-- Modelled from the spec: reader for the `overall_winner` field, which
is either the empty object or a four-field entry; the repository has no
summary reader. -/
def overallFromJson : Json → Option (Option WinnerEntry)
  | Json.obj [] => some none
  | Json.obj [("model", Json.str m),
              ("brier_score", Json.num bs),
              ("accuracy", Json.num acc),
              ("average_duration", Json.num ad)] =>
      some (some { best_model := m, brier_score := bs
                   accuracy := acc, average_duration := ad })
  | _ => none

/-- Modelled from the spec: reader for an optional average Brier score,
inverse of `brierToJson`; the repository has no summary reader. -/
def brierFromJson : Json → Option (Option ℚ)
  | Json.num q => some (some q)
  | Json.inf => some none
  | _ => none

/-- Modelled from the spec: reader for one summary-table row; the
repository has no summary reader. -/
def rowFromJson : Json → Option TableRow
  | Json.obj [("model", Json.str m),
              ("correct_predictions", cj),
              ("incorrect_predictions", ij),
              ("accuracy", Json.num acc),
              ("brier_score", bj),
              ("average_duration", Json.num ad)] =>
      match natFromJson cj, natFromJson ij, brierFromJson bj with
      | some c, some i, some b =>
          some { model := m, correct_predictions := c
                 incorrect_predictions := i, accuracy := acc
                 brier_score := b, average_duration := ad }
      | _, _, _ => none
  | _ => none

/-- Traverse a list with a fallible reader, failing when any element
fails. -/
def traverseOption (f : α → Option β) : List α → Option (List β)
  | [] => some []
  | a :: as =>
      match f a, traverseOption f as with
      | some b, some bs => some (b :: bs)
      | _, _ => none

/-- Modelled from the spec: reader for the whole summary document,
inverse of `Summary.toJson`; the repository has no summary reader. -/
def Summary.fromJson : Json → Option Summary
  | Json.obj [("per_category", Json.obj pcs),
              ("overall_winner", ow),
              ("model_performance_summary", Json.arr rows)] =>
      match traverseOption
              (fun p => (catEntryFromJson p.2).map (fun e => (p.1, e))) pcs,
            overallFromJson ow,
            traverseOption rowFromJson rows with
      | some pc, some o, some tbl =>
          some { per_category := pc, overall_winner := o
                 model_performance_summary := tbl }
      | _, _, _ => none
  | _ => none

/-! Theorems. -/

/-- C2: for every record, correctness is the exact case-sensitive equality
of the predicted label and the category (1 if equal, else 0), and the
record's calibration score is `(confidence - correct)^2`; for confidence
in `[0, 1]` the score lies in `[0, 1]`, and in particular confidence 1
with a correct prediction scores 0, confidence 0 with a correct
prediction scores 1, and confidence 0.8 with an incorrect prediction
scores 0.64. -/
theorem brier_correctness_spec :
    (∀ r : Record, r.category = r.intent → isCorrect r = 1)
  ∧ (∀ r : Record, r.category ≠ r.intent → isCorrect r = 0)
  ∧ (∀ r : Record, brierScore r = (r.confidence - (isCorrect r : ℚ)) ^ 2)
  ∧ (∀ r : Record, 0 ≤ r.confidence → r.confidence ≤ 1 →
      0 ≤ brierScore r ∧ brierScore r ≤ 1)
  ∧ (∀ r : Record, r.confidence = 1 → r.category = r.intent → brierScore r = 0)
  ∧ (∀ r : Record, r.confidence = 0 → r.category = r.intent → brierScore r = 1)
  ∧ (∀ r : Record, r.confidence = 8/10 → r.category ≠ r.intent →
      brierScore r = 64/100) := by
  refine ⟨?_, ?_, fun r => rfl, ?_, ?_, ?_, ?_⟩
  · intro r h; simp [isCorrect, h]
  · intro r h; simp [isCorrect, h]
  · intro r h0 h1
    refine ⟨sq_nonneg _, ?_⟩
    unfold brierScore isCorrect
    by_cases h : r.category = r.intent
    · simp only [h, if_pos rfl]; push_cast; nlinarith
    · simp only [if_neg h]; push_cast; nlinarith
  · intro r h1 h2; simp [brierScore, isCorrect, h1, h2]
  · intro r h1 h2; simp [brierScore, isCorrect, h1, h2]
  · intro r h1 h2; simp [brierScore, isCorrect, h1, h2]; norm_num

/-- Witness for C2 at concrete records: a fully-confident correct
prediction scores 0 and an 0.8-confident incorrect prediction scores
0.64. -/
theorem brier_correctness_spec_witness :
    brierScore ⟨"m", "weather", "q", "weather", 1, 0⟩ = 0
  ∧ brierScore ⟨"m", "weather", "q", "math", 8/10, 0⟩ = 64/100 :=
  ⟨brier_correctness_spec.2.2.2.2.1 _ rfl rfl,
   brier_correctness_spec.2.2.2.2.2.2 _ rfl (by decide)⟩

/-- C5: on an empty log, ingestion succeeds with the empty record
sequence and the Aggregator takes the "nothing to analyze" path: a normal
(successful) return with no summary written and no aggregation
performed. -/
theorem empty_log_nothing_to_analyze (p : String → Option RawRecord) :
    analyzeLogFile (some []) p = Outcome.emptyNothing
  ∧ ingest p [] = Except.ok ([] : List RawRecord) :=
  ⟨rfl, rfl⟩

/-- C6: record normalization applies the documented defaults — an absent
predicted label becomes "unknown", absent confidence and duration become
0 — present values are kept, and the aggregation step acts on exactly the
normalized record, so the defaults are in force before correctness and
calibration are computed. -/
theorem normalization_defaults (r : RawRecord) :
    (r.intent = none → (normalize r).intent = "unknown")
  ∧ (r.confidence = none → (normalize r).confidence = 0)
  ∧ (r.duration = none → (normalize r).duration = 0)
  ∧ (∀ v, r.intent = some v → (normalize r).intent = v)
  ∧ (∀ q, r.confidence = some q → (normalize r).confidence = q)
  ∧ (∀ q, r.duration = some q → (normalize r).duration = q)
  ∧ (∀ st, aggStep st r = aggStepRecord st (normalize r)) := by
  refine ⟨?_, ?_, ?_, ?_, ?_, ?_, fun st => rfl⟩
  all_goals intro h
  · simp [normalize, h]
  · simp [normalize, h]
  · simp [normalize, h]
  all_goals intro hq
  · simp [normalize, hq]
  · simp [normalize, hq]
  · simp [normalize, hq]

/-- Witness for C6 at a record with all optional fields absent. -/
theorem normalization_defaults_witness :
    (normalize ⟨"m", "weather", "q", none, none, none⟩).intent = "unknown"
  ∧ (normalize ⟨"m", "weather", "q", none, none, none⟩).confidence = 0
  ∧ (normalize ⟨"m", "weather", "q", none, none, none⟩).duration = 0 :=
  ⟨(normalization_defaults _).1 rfl,
   (normalization_defaults _).2.1 rfl,
   (normalization_defaults _).2.2.1 rfl⟩

/-- C7: the Aggregator is deterministic — aggregating the same record
sequence twice yields the same per-category winners, the same overall
winner and the same performance table, tie-breaks included: the summary
is a pure function of the record sequence. -/
theorem aggregator_deterministic (rs₁ rs₂ : List RawRecord) (h : rs₁ = rs₂) :
    (buildSummary rs₁).per_category = (buildSummary rs₂).per_category
  ∧ (buildSummary rs₁).overall_winner = (buildSummary rs₂).overall_winner
  ∧ (buildSummary rs₁).model_performance_summary
      = (buildSummary rs₂).model_performance_summary := by
  subst h; exact ⟨rfl, rfl, rfl⟩

/-- Witness for C7 on a concrete two-model log with an exact Brier-score
tie. -/
theorem aggregator_deterministic_witness :
    (buildSummary [⟨"a", "w", "q", some "w", some (1/2), some 1⟩,
                   ⟨"b", "w", "q", some "w", some (1/2), some 1⟩]).per_category
      = (buildSummary [⟨"a", "w", "q", some "w", some (1/2), some 1⟩,
                       ⟨"b", "w", "q", some "w", some (1/2), some 1⟩]).per_category
  ∧ (buildSummary [⟨"a", "w", "q", some "w", some (1/2), some 1⟩,
                   ⟨"b", "w", "q", some "w", some (1/2), some 1⟩]).overall_winner
      = (buildSummary [⟨"a", "w", "q", some "w", some (1/2), some 1⟩,
                       ⟨"b", "w", "q", some "w", some (1/2), some 1⟩]).overall_winner
  ∧ (buildSummary [⟨"a", "w", "q", some "w", some (1/2), some 1⟩,
                   ⟨"b", "w", "q", some "w", some (1/2), some 1⟩]).model_performance_summary
      = (buildSummary [⟨"a", "w", "q", some "w", some (1/2), some 1⟩,
                       ⟨"b", "w", "q", some "w", some (1/2), some 1⟩]).model_performance_summary :=
  aggregator_deterministic _ _ rfl

/-- C10: the Aggregator performs no validation or clamping of confidence:
a record with confidence 2 on an incorrect prediction gets calibration
score 4, and the reported `brier_score` in the performance table is 4 as
well — outside `[0, 1]`. -/
theorem no_confidence_clamping :
    brierScore (normalize ⟨"m", "weather", "q", some "math", some 2, some 0⟩) = 4
  ∧ (buildSummary [⟨"m", "weather", "q", some "math", some 2, some 0⟩]).model_performance_summary.map TableRow.brier_score
      = [some 4]
  ∧ (1 : ℚ) < 4 := by
  have hne : ("weather" : String) = "math" ↔ False := by
    simp only [iff_false]; decide
  refine ⟨by norm_num [brierScore, isCorrect, normalize, hne], ?_, by norm_num⟩
  norm_num [buildSummary, aggregate, aggStep, updStats, updCat, summaryTable,
    List.insertionSort, List.orderedInsert, mkRow, avgBrier, roundTo,
    roundHalfEven, statAccuracy, statAvgDuration, addToStats, emptyStats, hne]

/-- Comparing a value to itself never replaces the leader. -/
theorem ltOptInf_irrefl (a : Option ℚ) : ltOptInf a a = false := by
  cases a with
  | none => rfl
  | some x => simp [ltOptInf]

/-- Duality between the strict and non-strict extended orders. -/
theorem not_ltOptInf (a b : Option ℚ) :
    ltOptInf a b = false ↔ leOptInf b a = true := by
  cases a <;> cases b <;> simp [ltOptInf, leOptInf, not_lt]

/-- Reflexivity of the non-strict extended order. -/
theorem leOptInf_refl (a : Option ℚ) : leOptInf a a = true := by
  cases a <;> simp [leOptInf]

/-- Transitivity of the non-strict extended order. -/
theorem leOptInf_trans {a b c : Option ℚ} (h₁ : leOptInf a b = true)
    (h₂ : leOptInf b c = true) : leOptInf a c = true := by
  cases a <;> cases b <;> cases c <;> simp_all [leOptInf]
  exact le_trans h₁ h₂

/-- A non-strict bound that is not an equality is strict. -/
theorem ltOptInf_of_le_of_ne {a b : Option ℚ} (h₁ : leOptInf a b = true)
    (h₂ : a ≠ b) : ltOptInf a b = true := by
  cases a <;> cases b <;> simp_all [leOptInf, ltOptInf]
  exact lt_of_le_of_ne h₁ (by simpa using h₂)

/-- A strict comparison only succeeds from a finite average. -/
theorem ltOptInf_isSome {a b : Option ℚ} (h : ltOptInf a b = true) :
    ∃ x, a = some x := by
  cases a with
  | none => simp [ltOptInf] at h
  | some x => exact ⟨x, rfl⟩

/-- A group's average is finite exactly when it has recorded attempts. -/
theorem avgBrier_isSome_iff (s : Stats) :
    (avgBrier s).isSome = true ↔ s.brierScores ≠ [] := by
  unfold avgBrier
  by_cases h : s.brierScores.isEmpty
  · simp [h, List.isEmpty_iff.mp h]
  · simp [h]
    intro hc
    simp [hc] at h

/-- One selection step never increases the tracked lowest score. -/
theorem selStep_snd_le (acc : Option String × Option ℚ) (p : String × Stats) :
    leOptInf (selStep acc p).2 acc.2 = true := by
  unfold selStep
  split
  · rename_i h
    obtain ⟨x, hx⟩ := ltOptInf_isSome h
    have h2 : (some p.1, avgBrier p.2).2 = avgBrier p.2 := rfl
    rw [h2, hx]
    cases hacc : acc.2 with
    | none => rfl
    | some y =>
        rw [hacc, hx] at h
        simp only [ltOptInf, decide_eq_true_eq] at h
        simp [leOptInf, le_of_lt h]
  · exact leOptInf_refl _

/-- One selection step leaves the tracked lowest score at or below the
candidate's average. -/
theorem selStep_snd_le_avg (acc : Option String × Option ℚ)
    (p : String × Stats) :
    leOptInf (selStep acc p).2 (avgBrier p.2) = true := by
  unfold selStep
  split
  · exact leOptInf_refl _
  · rename_i h
    exact (not_ltOptInf _ _).mp (by simpa using h)

/-- The tracked lowest score only decreases along the selection fold. -/
theorem foldl_selStep_snd_le (ms : List (String × Stats)) :
    ∀ acc, leOptInf (ms.foldl selStep acc).2 acc.2 = true := by
  induction ms with
  | nil => intro acc; exact leOptInf_refl _
  | cons p rest ih =>
      intro acc
      exact leOptInf_trans (ih (selStep acc p)) (selStep_snd_le acc p)

/-- No group of the list beats the final tracked lowest score. -/
theorem foldl_selStep_min (ms : List (String × Stats)) :
    ∀ acc, ∀ q ∈ ms,
      ltOptInf (avgBrier q.2) (ms.foldl selStep acc).2 = false := by
  induction ms with
  | nil => intro acc q hq; exact absurd hq (List.not_mem_nil q)
  | cons p rest ih =>
      intro acc q hq
      rcases List.mem_cons.mp hq with h | h
      · subst h
        rw [List.foldl_cons]
        exact (not_ltOptInf _ _).mpr
          (leOptInf_trans (foldl_selStep_snd_le rest (selStep acc q))
            (selStep_snd_le_avg acc q))
      · rw [List.foldl_cons]
        exact ih (selStep acc p) q h

/-- The selection fold either keeps its accumulator or returns some
group of the list together with that group's finite average. -/
theorem foldl_selStep_mem (ms : List (String × Stats)) :
    ∀ acc, ms.foldl selStep acc = acc
      ∨ ∃ m s, (m, s) ∈ ms ∧ ms.foldl selStep acc = (some m, avgBrier s)
          ∧ s.brierScores ≠ [] := by
  induction ms with
  | nil => intro acc; exact Or.inl rfl
  | cons p rest ih =>
      intro acc
      rw [List.foldl_cons]
      rcases ih (selStep acc p) with h | ⟨m, s, hm, he, hne⟩
      · by_cases hu : ltOptInf (avgBrier p.2) acc.2 = true
        · right
          refine ⟨p.1, p.2, List.mem_cons_self p rest, ?_, ?_⟩
          · rw [h]; unfold selStep; rw [if_pos hu]
          · obtain ⟨x, hx⟩ := ltOptInf_isSome hu
            exact (avgBrier_isSome_iff p.2).mp (by simp [hx])
        · left
          rw [h]; unfold selStep; rw [if_neg hu]
      · right
        exact ⟨m, s, List.mem_cons_of_mem p hm, he, hne⟩

/-- If no group of the list beats the accumulator, the selection fold
keeps the accumulator: in particular an exact tie never replaces the
current leader. -/
theorem foldl_selStep_no_update (ms : List (String × Stats)) :
    ∀ acc, (∀ p ∈ ms, ltOptInf (avgBrier p.2) acc.2 = false) →
      ms.foldl selStep acc = acc := by
  induction ms with
  | nil => intro acc _; rfl
  | cons p rest ih =>
      intro acc hall
      rw [List.foldl_cons]
      have hs : selStep acc p = acc := by
        unfold selStep
        rw [if_neg (by simp [hall p (List.mem_cons_self p rest)])]
      rw [hs]
      exact ih acc (fun q hq => hall q (List.mem_cons_of_mem p hq))

/-- C1: winner selection, applied by the Aggregator to each category's
group list and to the overall group list.  (1) A selected winner is one
of the listed groups, has at least one recorded attempt, and its average
is the tracked lowest score, so a zero-attempt group can never win;
(2) the winner's average is lowest: no listed group has a strictly lower
average; (3) when any listed group has an attempt, a winner is selected;
(4) a candidate whose average equals the current leader's score does not
replace the leader; (5) the first listed group attaining the final lowest
average is the selected winner — first-seen wins on exact ties. -/
theorem winner_selection_spec (ms : List (String × Stats)) :
    (∀ m, (selectWinner ms).1 = some m →
      ∃ s, (m, s) ∈ ms ∧ s.brierScores ≠ []
        ∧ avgBrier s = (selectWinner ms).2)
  ∧ (∀ p ∈ ms, leOptInf (selectWinner ms).2 (avgBrier p.2) = true)
  ∧ ((∃ p ∈ ms, p.2.brierScores ≠ []) → (selectWinner ms).1.isSome = true)
  ∧ (∀ acc p, avgBrier p.2 = acc.2 → selStep acc p = acc)
  ∧ (∀ l₁ m s l₂, ms = l₁ ++ (m, s) :: l₂ → s.brierScores ≠ [] →
      avgBrier s = (selectWinner ms).2 →
      (∀ p ∈ l₁, avgBrier p.2 ≠ (selectWinner ms).2) →
      (selectWinner ms).1 = some m) := by
  refine ⟨?_, ?_, ?_, ?_, ?_⟩
  · intro m hm
    rcases foldl_selStep_mem ms (none, none) with h | ⟨m', s, hmem, he, hne⟩
    · rw [show selectWinner ms = ms.foldl selStep (none, none) from rfl, h] at hm
      exact absurd hm (by simp)
    · have hW : selectWinner ms = (some m', avgBrier s) := he
      rw [hW] at hm
      obtain rfl : m' = m := by simpa using hm
      exact ⟨s, hmem, hne, by rw [hW]⟩
  · intro p hp
    exact (not_ltOptInf _ _).mp (foldl_selStep_min ms (none, none) p hp)
  · intro ⟨p, hp, hne⟩
    rcases foldl_selStep_mem ms (none, none) with h | ⟨m', s, _, he, _⟩
    · exfalso
      have hmin := foldl_selStep_min ms (none, none) p hp
      rw [show ms.foldl selStep (none, none) = selectWinner ms from rfl] at hmin
      rw [show selectWinner ms = ms.foldl selStep (none, none) from rfl, h]
        at hmin
      have : (avgBrier p.2).isSome = true := (avgBrier_isSome_iff p.2).mpr hne
      obtain ⟨x, hx⟩ := Option.isSome_iff_exists.mp this
      simp [hx, ltOptInf] at hmin
    · rw [show selectWinner ms = ms.foldl selStep (none, none) from rfl, he]
      rfl
  · intro acc p h
    unfold selStep
    rw [if_neg (by simp [h, ltOptInf_irrefl])]
  · intro l₁ m s l₂ hms hne havg hfirst
    obtain ⟨v, hv⟩ :=
      Option.isSome_iff_exists.mp ((avgBrier_isSome_iff s).mpr hne)
    have hsplit : selectWinner ms
        = l₂.foldl selStep (selStep (l₁.foldl selStep (none, none)) (m, s)) := by
      rw [show selectWinner ms = ms.foldl selStep (none, none) from rfl, hms,
        List.foldl_append, List.foldl_cons]
    have hupd : ltOptInf (avgBrier s) (l₁.foldl selStep (none, none)).2
        = true := by
      rcases foldl_selStep_mem l₁ (none, none) with h | ⟨m', s', hmem, he, _⟩
      · rw [h, hv]; rfl
      · rw [he]
        have hmem' : (m', s') ∈ ms := by
          rw [hms]; exact List.mem_append_left _ hmem
        have hle : leOptInf (avgBrier s) (avgBrier s') = true := by
          rw [havg]
          exact (not_ltOptInf _ _).mp
            (foldl_selStep_min ms (none, none) (m', s') hmem')
        exact ltOptInf_of_le_of_ne hle
          (by rw [havg]; exact fun hc => hfirst (m', s') hmem hc.symm)
    have hstep : selStep (l₁.foldl selStep (none, none)) (m, s)
        = (some m, avgBrier s) := by
      show (if ltOptInf (avgBrier s) (l₁.foldl selStep (none, none)).2 = true
            then (some m, avgBrier s)
            else l₁.foldl selStep (none, none)) = (some m, avgBrier s)
      rw [if_pos hupd]
    have hrest : l₂.foldl selStep (some m, avgBrier s)
        = (some m, avgBrier s) := by
      refine foldl_selStep_no_update l₂ _ (fun p hp => ?_)
      have hp' : p ∈ ms := by
        rw [hms]
        exact List.mem_append_right _ (List.mem_cons_of_mem _ hp)
      have := foldl_selStep_min ms (none, none) p hp'
      rw [show ms.foldl selStep (none, none) = selectWinner ms from rfl,
        ← havg] at this
      simpa using this
    rw [hsplit, hstep, hrest]

/-- Witness for C1 on a concrete group list with an exact tie between
the first two models and a zero-attempt third group: the first model is
selected and its average is lowest. -/
theorem winner_selection_spec_witness :
    (selectWinner [("a", ⟨[1/2], 0, 1, [0]⟩), ("b", ⟨[1/2], 0, 1, [0]⟩),
        ("z", ⟨[], 0, 0, []⟩)]).1 = some "a"
  ∧ leOptInf (selectWinner [("a", ⟨[1/2], 0, 1, [0]⟩),
        ("b", ⟨[1/2], 0, 1, [0]⟩), ("z", ⟨[], 0, 0, []⟩)]).2
      (avgBrier ⟨[1/2], 0, 1, [0]⟩) = true := by
  constructor
  · exact (winner_selection_spec _).2.2.2.2 [] "a" ⟨[1/2], 0, 1, [0]⟩
      [("b", ⟨[1/2], 0, 1, [0]⟩), ("z", ⟨[], 0, 0, []⟩)] rfl (by simp)
      (by norm_num [selectWinner, selStep, ltOptInf, avgBrier])
      (fun p hp => absurd hp (List.not_mem_nil p))
  · exact (winner_selection_spec _).2.1 ("b", ⟨[1/2], 0, 1, [0]⟩)
      (List.mem_cons_of_mem _ (List.mem_cons_self _ _))

/-- Ingestion stops at the first unparseable line and reports it. -/
theorem ingest_error_of_first_bad (p : String → Option RawRecord) :
    ∀ l₁ bad l₂, (∀ l ∈ l₁, (p l).isSome) → p bad = none →
      ingest p (l₁ ++ bad :: l₂) = Except.error bad := by
  intro l₁
  induction l₁ with
  | nil => intro bad l₂ _ hbad; simp [ingest, hbad]
  | cons a as ih =>
      intro bad l₂ hall hbad
      obtain ⟨r, hr⟩ := Option.isSome_iff_exists.mp (hall a (by simp))
      simp [ingest, hr, ih bad l₂ (fun l hl => hall l (by simp [hl])) hbad]

/-- Ingestion fails whenever any line of the log is unparseable. -/
theorem ingest_error_of_mem_bad (p : String → Option RawRecord) :
    ∀ lines, (∃ l ∈ lines, p l = none) →
      ∃ b, ingest p lines = Except.error b := by
  intro lines
  induction lines with
  | nil => intro ⟨l, hl, _⟩; exact absurd hl (List.not_mem_nil l)
  | cons a as ih =>
      intro ⟨l, hl, hnone⟩
      cases ha : p a with
      | none => exact ⟨a, by simp [ingest, ha]⟩
      | some r =>
          have hmem : l ∈ as := by
            rcases List.mem_cons.mp hl with h | h
            · subst h; rw [ha] at hnone; exact absurd hnone (by simp)
            · exact h
          obtain ⟨b, hb⟩ := ih ⟨l, hmem, hnone⟩
          exact ⟨b, by simp [ingest, ha, hb]⟩

/-- C4: ingestion is all-or-nothing.  A missing log file exits with
status 1; when a line cannot be parsed, ingestion reports the first
offending line as a `MalformedRecord`-style error and the Aggregator
exits with status 1 — never reaching the aggregation or writing a
summary (`Outcome.exit` carries no summary). -/
theorem ingestion_all_or_nothing (p : String → Option RawRecord) :
    analyzeLogFile none p = Outcome.exit 1
  ∧ (∀ l₁ bad l₂, (∀ l ∈ l₁, (p l).isSome) → p bad = none →
      ingest p (l₁ ++ bad :: l₂) = Except.error bad
      ∧ analyzeLogFile (some (l₁ ++ bad :: l₂)) p = Outcome.exit 1)
  ∧ (∀ lines, (∃ l ∈ lines, p l = none) →
      analyzeLogFile (some lines) p = Outcome.exit 1) := by
  refine ⟨rfl, ?_, ?_⟩
  · intro l₁ bad l₂ hall hbad
    have he := ingest_error_of_first_bad p l₁ bad l₂ hall hbad
    exact ⟨he, by simp [analyzeLogFile, he]⟩
  · intro lines hex
    obtain ⟨b, hb⟩ := ingest_error_of_mem_bad p lines hex
    simp [analyzeLogFile, hb]

/-- Witness for C4 on a concrete two-line log whose second line is
unparseable: ingestion reports that line and the run exits with
status 1. -/
theorem ingestion_all_or_nothing_witness :
    ingest (fun s => if s = "ok" then some ⟨"m", "c", "q", none, none, none⟩
        else none) ["ok", "oops"] = Except.error "oops"
  ∧ analyzeLogFile (some ["ok", "oops"])
        (fun s => if s = "ok" then some ⟨"m", "c", "q", none, none, none⟩
          else none)
      = Outcome.exit 1 :=
  (ingestion_all_or_nothing _).2.1 ["ok"] "oops" []
    (by intro l hl; simp only [List.mem_singleton] at hl; subst hl; decide)
    (by decide)

/-- Updating a statistics table at `key` appends `key` to the key list
exactly when it was absent: Python dict insertion order. -/
theorem map_fst_updStats (key : String) (b : ℚ) (c : ℕ) (d : ℚ) :
    ∀ l : List (String × Stats),
      (updStats key b c d l).map Prod.fst
        = l.map Prod.fst
            ++ (if key ∈ l.map Prod.fst then [] else [key]) := by
  intro l
  induction l with
  | nil => simp [updStats]
  | cons hd tl ih =>
      obtain ⟨k₀, s₀⟩ := hd
      by_cases h : k₀ = key
      · subst h
        simp [updStats]
      · have hiff : key = k₀ ∨ key ∈ tl.map Prod.fst ↔ key ∈ tl.map Prod.fst :=
          or_iff_right (fun hc => h hc.symm)
        simp [updStats, if_neg h, ih, List.mem_cons, hiff]
        simp only [List.mem_cons, hiff]

/-- Updating a statistics table preserves distinctness of its keys. -/
theorem nodup_keys_updStats (key : String) (b : ℚ) (c : ℕ) (d : ℚ)
    (l : List (String × Stats)) (h : (l.map Prod.fst).Nodup) :
    ((updStats key b c d l).map Prod.fst).Nodup := by
  rw [map_fst_updStats]
  by_cases hm : key ∈ l.map Prod.fst
  · simpa [hm] using h
  · simp [hm, List.nodup_append, h]

/-- Lookup after an update: the updated key holds its old statistics
(or a fresh default) extended by the new attempt; other keys are
untouched. -/
theorem lookupS_updStats (key : String) (b : ℚ) (c : ℕ) (d : ℚ)
    (m : String) :
    ∀ l : List (String × Stats),
      lookupS m (updStats key b c d l)
        = if key = m
          then some (addToStats ((lookupS m l).getD emptyStats) b c d)
          else lookupS m l := by
  intro l
  induction l with
  | nil =>
      by_cases h : key = m <;> simp [updStats, lookupS, h]
  | cons hd tl ih =>
      obtain ⟨k₀, s₀⟩ := hd
      by_cases h₁ : k₀ = key
      · subst h₁
        by_cases h₂ : k₀ = m <;> simp [updStats, lookupS, h₂]
      · by_cases h₂ : k₀ = m
        · subst h₂
          have hne : ¬ key = k₀ := fun hc => h₁ hc.symm
          simp [updStats, h₁, lookupS, hne]
        · simp [updStats, h₁, lookupS, h₂, ih]

/-- Lookup fails exactly on absent keys. -/
theorem lookupS_eq_none_iff (m : String) :
    ∀ l : List (String × Stats),
      lookupS m l = none ↔ m ∉ l.map Prod.fst := by
  intro l
  induction l with
  | nil => simp [lookupS]
  | cons hd tl ih =>
      obtain ⟨k₀, s₀⟩ := hd
      rw [List.map_cons, List.mem_cons]
      by_cases h : k₀ = m
      · subst h
        simp [lookupS]
      · have hstep : lookupS m ((k₀, s₀) :: tl) = lookupS m tl := by
          simp [lookupS, h]
        rw [hstep, ih]
        constructor
        · intro hn hor
          rcases hor with he | hm
          · exact h he.symm
          · exact hn hm
        · intro hn hm
          exact hn (Or.inr hm)

/-- With distinct keys, membership determines the lookup result. -/
theorem mem_lookupS (m : String) (s : Stats) :
    ∀ l : List (String × Stats), (l.map Prod.fst).Nodup →
      (m, s) ∈ l → lookupS m l = some s := by
  intro l
  induction l with
  | nil => intro _ hm; exact absurd hm (List.not_mem_nil _)
  | cons hd tl ih =>
      obtain ⟨k₀, s₀⟩ := hd
      intro hnd hm
      rw [List.map_cons, List.nodup_cons] at hnd
      rcases List.mem_cons.mp hm with h | h
      · rw [Prod.mk.injEq] at h
        obtain ⟨rfl, rfl⟩ := h
        simp [lookupS]
      · have hk : ¬ k₀ = m := by
          intro hc
          subst hc
          exact hnd.1 (List.mem_map.mpr ⟨(k₀, s), h, rfl⟩)
        simp only [lookupS, if_neg hk]
        exact ih hnd.2 h

/-- Each update adds exactly one to the total attempt count of the
table. -/
theorem totalSum_updStats (key : String) (b : ℚ) (c : ℕ) (d : ℚ) :
    ∀ l : List (String × Stats),
      totalSum (updStats key b c d l) = totalSum l + 1 := by
  intro l
  induction l with
  | nil => simp [updStats, totalSum, addToStats, emptyStats]
  | cons hd tl ih =>
      obtain ⟨k₀, s₀⟩ := hd
      by_cases h : k₀ = key
      · subst h; simp [updStats, totalSum, addToStats]; omega
      · simp [updStats, h, totalSum, addToStats] at ih ⊢
        omega

/-- Each update adds exactly one to the total attempt count of the
nested per-category table. -/
theorem catTotalSum_updCat (cat model : String) (b : ℚ) (c : ℕ) (d : ℚ) :
    ∀ t : List (String × List (String × Stats)),
      catTotalSum (updCat cat model b c d t) = catTotalSum t + 1 := by
  intro t
  induction t with
  | nil =>
      simp [updCat, catTotalSum, totalSum, updStats, addToStats, emptyStats]
  | cons hd tl ih =>
      obtain ⟨k₀, ms₀⟩ := hd
      by_cases h : k₀ = cat
      · subst h; simp [updCat, catTotalSum, totalSum_updStats]; omega
      · simp [updCat, h, catTotalSum] at ih ⊢
        omega

/-- The overall table of one aggregation step, unfolded. -/
theorem aggStep_overall (st : AggState) (r : RawRecord) :
    (aggStep st r).overallStats
      = updStats r.model (brierScore (normalize r)) (isCorrect (normalize r))
          (normalize r).duration st.overallStats := rfl

/-- The per-category table of one aggregation step, unfolded. -/
theorem aggStep_cat (st : AggState) (r : RawRecord) :
    (aggStep st r).catStats
      = updCat r.category r.model (brierScore (normalize r))
          (isCorrect (normalize r)) (normalize r).duration st.catStats := rfl

/-- Every record contributes exactly one attempt to the overall table:
the attempt counts sum to the number of records processed. -/
theorem aggregate_totalSum :
    ∀ (rs : List RawRecord) (st : AggState),
      totalSum ((rs.foldl aggStep st).overallStats)
        = totalSum st.overallStats + rs.length := by
  intro rs
  induction rs with
  | nil => intro st; simp
  | cons r rest ih =>
      intro st
      rw [List.foldl_cons, ih (aggStep st r), aggStep_overall,
        totalSum_updStats, List.length_cons]
      omega

/-- Every record contributes exactly one attempt to the nested
per-category table. -/
theorem aggregate_catTotalSum :
    ∀ (rs : List RawRecord) (st : AggState),
      catTotalSum ((rs.foldl aggStep st).catStats)
        = catTotalSum st.catStats + rs.length := by
  intro rs
  induction rs with
  | nil => intro st; simp
  | cons r rest ih =>
      intro st
      rw [List.foldl_cons, ih (aggStep st r), aggStep_cat,
        catTotalSum_updCat, List.length_cons]
      omega

/-- Aggregation keeps the overall table's keys distinct. -/
theorem aggregate_keys_nodup :
    ∀ (rs : List RawRecord) (st : AggState),
      ((st.overallStats.map Prod.fst).Nodup) →
      (((rs.foldl aggStep st).overallStats).map Prod.fst).Nodup := by
  intro rs
  induction rs with
  | nil => intro st h; simpa using h
  | cons r rest ih =>
      intro st h
      rw [List.foldl_cons]
      exact ih (aggStep st r)
        (by rw [aggStep_overall]; exact nodup_keys_updStats _ _ _ _ _ h)

/-- What the aggregation stores for one model is the fold of exactly the
records carrying that model over that model's entry. -/
theorem lookupS_aggregate (m : String) :
    ∀ (rs : List RawRecord) (st : AggState),
      lookupS m ((rs.foldl aggStep st).overallStats)
        = (rs.filter (fun r => r.model = m)).foldl modelStep
            (lookupS m st.overallStats) := by
  intro rs
  induction rs with
  | nil => intro st; simp
  | cons r rest ih =>
      intro st
      rw [List.foldl_cons, ih (aggStep st r), aggStep_overall,
        lookupS_updStats, List.filter_cons]
      by_cases h : r.model = m
      · rw [if_pos h, if_pos (by simp [h])]
        rfl
      · rw [if_neg h, if_neg (by simp [h])]

/-- The per-model fold starting from an existing entry always yields an
entry. -/
theorem modelStep_foldl_isSome :
    ∀ (l : List RawRecord) (s : Stats),
      (l.foldl modelStep (some s)).isSome = true := by
  intro l
  induction l with
  | nil => intro s; rfl
  | cons r rest ih =>
      intro s
      rw [List.foldl_cons]
      exact ih _

/-- Attempt count stored by the per-model fold. -/
theorem modelStep_foldl_total :
    ∀ (l : List RawRecord) (o : Option Stats),
      ((l.foldl modelStep o).getD emptyStats).totalCount
        = (o.getD emptyStats).totalCount + l.length := by
  intro l
  induction l with
  | nil => intro o; simp
  | cons r rest ih =>
      intro o
      rw [List.foldl_cons, ih (modelStep o r)]
      simp [modelStep, addToStats]
      omega

/-- Correct count stored by the per-model fold. -/
theorem modelStep_foldl_correct :
    ∀ (l : List RawRecord) (o : Option Stats),
      ((l.foldl modelStep o).getD emptyStats).correctCount
        = (o.getD emptyStats).correctCount
            + (l.map (fun r => isCorrect (normalize r))).sum := by
  intro l
  induction l with
  | nil => intro o; simp
  | cons r rest ih =>
      intro o
      rw [List.foldl_cons, ih (modelStep o r)]
      simp [modelStep, addToStats]
      omega

/-- The correctness indicators of a record list sum to at most its
length: each indicator is 0 or 1. -/
theorem sum_isCorrect_le_length :
    ∀ l : List RawRecord,
      (l.map (fun r => isCorrect (normalize r))).sum ≤ l.length := by
  intro l
  induction l with
  | nil => simp
  | cons r rest ih =>
      have h1 : isCorrect (normalize r) ≤ 1 := by
        unfold isCorrect; split <;> omega
      simp only [List.map_cons, List.sum_cons, List.length_cons]
      omega

/-- C3: every ingested record contributes to exactly one (category,
model) group and exactly one overall model group (the attempt counts of
both tables sum to the number of records); `model_performance_summary`
has exactly one row per distinct model of the input, ordered
lexicographically by model identifier regardless of first-appearance
order; and every row satisfies `correct_predictions +
incorrect_predictions = total attempts of that model`. -/
theorem summary_table_invariants (rs : List RawRecord) :
    ((buildSummary rs).model_performance_summary.map TableRow.model).Sorted
        (· < ·)
  ∧ (∀ m, m ∈ (buildSummary rs).model_performance_summary.map TableRow.model
      ↔ m ∈ rs.map RawRecord.model)
  ∧ (∀ row ∈ (buildSummary rs).model_performance_summary,
      row.correct_predictions + row.incorrect_predictions
        = (rs.filter (fun r => r.model = row.model)).length)
  ∧ totalSum (aggregate rs).overallStats = rs.length
  ∧ catTotalSum (aggregate rs).catStats = rs.length := by
  have hmps : (buildSummary rs).model_performance_summary
      = summaryTable (aggregate rs).overallStats := rfl
  have hagg : aggregate rs
      = rs.foldl aggStep { catStats := [], overallStats := [] } := rfl
  have hnodup : (((aggregate rs).overallStats).map Prod.fst).Nodup := by
    rw [hagg]
    exact aggregate_keys_nodup rs _ (by simp)
  have hlook : ∀ m, lookupS m (aggregate rs).overallStats
      = (rs.filter (fun r => r.model = m)).foldl modelStep none := by
    intro m
    rw [hagg]
    exact lookupS_aggregate m rs _
  have hmap : (summaryTable (aggregate rs).overallStats).map TableRow.model
      = (((aggregate rs).overallStats).insertionSort keyLe).map Prod.fst := by
    unfold summaryTable
    rw [List.map_map]
    rfl
  have hperm := List.perm_insertionSort keyLe (aggregate rs).overallStats
  have hmemkeys : ∀ m,
      m ∈ ((aggregate rs).overallStats).map Prod.fst
        ↔ m ∈ rs.map RawRecord.model := by
    intro m
    constructor
    · intro hm
      cases hf : rs.filter (fun r => r.model = m) with
      | nil =>
          exfalso
          have hnone : lookupS m (aggregate rs).overallStats = none := by
            rw [hlook m, hf]; rfl
          exact (lookupS_eq_none_iff m _).mp hnone hm
      | cons a l =>
          have ha : a ∈ rs.filter (fun r => r.model = m) := by
            rw [hf]; exact List.mem_cons_self a l
          have := List.mem_filter.mp ha
          exact List.mem_map.mpr ⟨a, this.1, by simpa using this.2⟩
    · intro hm
      obtain ⟨a, ha, hma⟩ := List.mem_map.mp hm
      have haf : a ∈ rs.filter (fun r => r.model = m) :=
        List.mem_filter.mpr ⟨ha, by simpa using hma⟩
      by_contra hnm
      have hnone : lookupS m (aggregate rs).overallStats = none :=
        (lookupS_eq_none_iff m _).mpr hnm
      rw [hlook m] at hnone
      cases hf : rs.filter (fun r => r.model = m) with
      | nil => rw [hf] at haf; exact absurd haf (List.not_mem_nil a)
      | cons b l =>
          rw [hf, List.foldl_cons] at hnone
          have hs := modelStep_foldl_isSome l
            (addToStats emptyStats (brierScore (normalize b))
              (isCorrect (normalize b)) (normalize b).duration)
          rw [show (some (addToStats emptyStats (brierScore (normalize b))
              (isCorrect (normalize b)) (normalize b).duration))
            = modelStep none b from rfl, hnone] at hs
          simp at hs
  refine ⟨?_, ?_, ?_, ?_, ?_⟩
  · rw [hmps, hmap]
    have hsorted : List.Sorted keyLe
        (((aggregate rs).overallStats).insertionSort keyLe) :=
      List.sorted_insertionSort keyLe _
    have hple : ((((aggregate rs).overallStats).insertionSort keyLe).map
        Prod.fst).Pairwise (· ≤ ·) :=
      List.Pairwise.map Prod.fst (fun _ _ h => h) hsorted
    have hpnd : ((((aggregate rs).overallStats).insertionSort keyLe).map
        Prod.fst).Nodup :=
      ((hperm.map Prod.fst).nodup_iff).mpr hnodup
    exact (hple.and hpnd).imp (fun h => lt_of_le_of_ne h.1 h.2)
  · intro m
    rw [hmps, hmap]
    rw [(hperm.map Prod.fst).mem_iff]
    exact hmemkeys m
  · intro row hrow
    rw [hmps] at hrow
    unfold summaryTable at hrow
    obtain ⟨p, hp, hrw⟩ := List.mem_map.mp hrow
    obtain ⟨m, s⟩ := p
    subst hrw
    have hpov : (m, s) ∈ (aggregate rs).overallStats := hperm.mem_iff.mp hp
    have hl : lookupS m (aggregate rs).overallStats = some s :=
      mem_lookupS m s _ hnodup hpov
    rw [hlook m] at hl
    have htot : s.totalCount = (rs.filter (fun r => r.model = m)).length := by
      have := modelStep_foldl_total (rs.filter (fun r => r.model = m)) none
      rw [hl] at this
      simpa [emptyStats] using this
    have hcor : s.correctCount
        = ((rs.filter (fun r => r.model = m)).map
            (fun r => isCorrect (normalize r))).sum := by
      have := modelStep_foldl_correct (rs.filter (fun r => r.model = m)) none
      rw [hl] at this
      simpa [emptyStats] using this
    have hle : s.correctCount ≤ s.totalCount := by
      rw [htot, hcor]
      exact sum_isCorrect_le_length _
    have hmodel : (mkRow m s).model = m := rfl
    rw [hmodel]
    show s.correctCount + (s.totalCount - s.correctCount)
      = (rs.filter (fun r => r.model = m)).length
    rw [Nat.add_sub_cancel' hle, htot]
  · rw [hagg]
    have h0 : totalSum ({ catStats := [], overallStats := [] }
        : AggState).overallStats = 0 := rfl
    have := aggregate_totalSum rs { catStats := [], overallStats := [] }
    omega
  · rw [hagg]
    have h0 : catTotalSum ({ catStats := [], overallStats := [] }
        : AggState).catStats = 0 := rfl
    have := aggregate_catTotalSum rs { catStats := [], overallStats := [] }
    omega

/-- Witness for C3 on a concrete two-record log whose models appear in
reverse lexicographic order: model "a" has a row, and that row's correct
and incorrect counts sum to its attempt count. -/
theorem summary_table_invariants_witness :
    ("a" ∈ (buildSummary [⟨"b", "weather", "q1", some "weather", some 1, some 1⟩,
        ⟨"a", "weather", "q2", some "math", some 0, some 2⟩]).model_performance_summary.map
          TableRow.model)
  ∧ ((⟨"a", 0, 1, 0, some 0, 2⟩ : TableRow).correct_predictions
      + (⟨"a", 0, 1, 0, some 0, 2⟩ : TableRow).incorrect_predictions
      = ([⟨"b", "weather", "q1", some "weather", some 1, some 1⟩,
          ⟨"a", "weather", "q2", some "math", some 0, some 2⟩].filter
            (fun r : RawRecord =>
              r.model = (⟨"a", 0, 1, 0, some 0, 2⟩ : TableRow).model)).length) := by
  constructor
  · exact ((summary_table_invariants
      [⟨"b", "weather", "q1", some "weather", some 1, some 1⟩,
       ⟨"a", "weather", "q2", some "math", some 0, some 2⟩]).2.1 "a").mpr
      (by simp)
  · refine (summary_table_invariants
      [⟨"b", "weather", "q1", some "weather", some 1, some 1⟩,
       ⟨"a", "weather", "q2", some "math", some 0, some 2⟩]).2.2.1
      ⟨"a", 0, 1, 0, some 0, 2⟩ ?_
    have hne : ("weather" : String) = "math" ↔ False := by
      simp only [iff_false]; decide
    have hk1 : ∀ x y : Stats, keyLe ("b", x) ("a", y) ↔ False := by
      intro x y
      simp only [keyLe, iff_false, String.le_iff_toList_le]
      decide
    norm_num [buildSummary, aggregate, aggStep, updStats, updCat, summaryTable,
      List.insertionSort, List.orderedInsert, mkRow, avgBrier, roundTo,
      roundHalfEven, statAccuracy, statAvgDuration, addToStats, emptyStats,
      hne, hk1]

/-- Reading back a serialized count recovers it exactly. -/
theorem natFromJson_natCast (n : ℕ) :
    natFromJson (Json.num (n : ℚ)) = some n := by
  simp [natFromJson, Rat.num_natCast]

/-- Reading back a serialized per-category entry recovers it exactly. -/
theorem catEntry_roundtrip (e : WinnerEntry) :
    catEntryFromJson (catEntryToJson e) = some e := rfl

/-- Reading back the serialized overall winner recovers it exactly. -/
theorem overall_roundtrip (o : Option WinnerEntry) :
    overallFromJson (overallToJson o) = some o := by
  cases o <;> rfl

/-- Reading back a serialized optional Brier score recovers it
exactly. -/
theorem brier_roundtrip (b : Option ℚ) :
    brierFromJson (brierToJson b) = some b := by
  cases b <;> rfl

/-- Reading back a serialized table row recovers it exactly. -/
theorem row_roundtrip (r : TableRow) :
    rowFromJson (rowToJson r) = some r := by
  simp [rowToJson, rowFromJson, natFromJson_natCast, brier_roundtrip]

/-- Traversal of an elementwise round-trip is the identity. -/
theorem traverseOption_map (f : α → Option β) (g : β → α)
    (hfg : ∀ b, f (g b) = some b) :
    ∀ l : List β, traverseOption f (l.map g) = some l := by
  intro l
  induction l with
  | nil => rfl
  | cons b bs ih => simp [traverseOption, hfg, ih]

/-- Reading back a serialized summary document recovers it exactly. -/
theorem summary_roundtrip_aux (s : Summary) :
    Summary.fromJson (Summary.toJson s) = some s := by
  obtain ⟨pc, ow, tbl⟩ := s
  have h1 : traverseOption
      (fun p => (catEntryFromJson p.2).map (fun e => (p.1, e)))
      (pc.map (fun p => (p.1, catEntryToJson p.2))) = some pc :=
    traverseOption_map _ _ (fun b => by simp [catEntry_roundtrip]) pc
  have h2 : traverseOption rowFromJson (tbl.map rowToJson) = some tbl :=
    traverseOption_map _ _ row_roundtrip tbl
  simp [Summary.toJson, Summary.fromJson, h1, h2, overall_roundtrip]

/-- C8: serializing the summary document to the written JSON structure
and re-parsing it reproduces exactly the same `per_category`,
`overall_winner` and `model_performance_summary` values, in particular
for the summary built from any non-empty record sequence. -/
theorem summary_roundtrip :
    (∀ s : Summary, Summary.fromJson (Summary.toJson s) = some s)
  ∧ (∀ rs : List RawRecord, rs ≠ [] →
      Summary.fromJson (Summary.toJson (buildSummary rs))
        = some (buildSummary rs)) :=
  ⟨summary_roundtrip_aux, fun rs _ => summary_roundtrip_aux (buildSummary rs)⟩

/-- Witness for C8 at a concrete singleton log. -/
theorem summary_roundtrip_witness :
    Summary.fromJson (Summary.toJson
        (buildSummary [⟨"m", "w", "q", some "w", some 1, some 1⟩]))
      = some (buildSummary [⟨"m", "w", "q", some "w", some 1, some 1⟩]) :=
  summary_roundtrip.2 _ (by simp)

/-- C9 counterexample: the claim that every successful call whose
response cannot be parsed as the expected structured output is recorded
with the sentinel label "error" and the producer continues is false.
`run_tests.py` lines 191-200 catch only `json.JSONDecodeError`: a
response that is valid JSON but not an object ("[1]") crashes on
`parsed.get` (`AttributeError`), and a JSON object whose confidence
`float` cannot convert crashes on `float(raw_confidence)`
(`ValueError`); in both cases the outcome is a crash, not a sentinel
record — and the run dies, the remaining attempt never runs. -/
theorem producer_attempt_recovery_counterexample :
    attemptStep (fun _ => some (PyVal.plist [PyVal.pnum 1])) (fun _ => none)
        "m" "weather" "q" (CallResult.success "[1]" 1)
      = AttemptOutcome.crash
  ∧ producerRun (fun _ => some (PyVal.plist [PyVal.pnum 1])) (fun _ => none)
      [⟨"m", "weather", "q", CallResult.success "[1]" 1⟩,
       ⟨"m", "time", "q2", CallResult.failure⟩]
      = ([], false)
  ∧ attemptStep
      (fun _ => some (PyVal.pdict
        [("intent", PyVal.pstr "weather"), ("confidence", PyVal.pstr "high")]))
      (fun _ => none) "m" "weather" "q" (CallResult.success "resp" 1)
      = AttemptOutcome.crash :=
  ⟨rfl, rfl, rfl⟩

/-- C9 (amended): a failed or timed-out HTTP call results in no record
(a skip, not a retry) and the producer continues with the next query;
a successful call whose response text is not valid JSON (`json.loads`
raises) is recorded with the sentinel label "error" and confidence 0,
and the producer continues.  Only that decode failure is recovered:
a response that is valid JSON but not an object, or a JSON object whose
present, non-null confidence `float` cannot convert, raises an uncaught
exception that crashes the producer — no record for that attempt, and
no further attempts run. -/
theorem producer_attempt_recovery_amended
    (loads : String → Option PyVal) (toFloat : String → Option ℚ) :
    (∀ m c q, attemptStep loads toFloat m c q CallResult.failure
        = AttemptOutcome.skip)
  ∧ (∀ (a : Attempt) rest,
      attemptStep loads toFloat a.model a.category a.query a.result
          = AttemptOutcome.skip →
      producerRun loads toFloat (a :: rest) = producerRun loads toFloat rest)
  ∧ (∀ m c q text dur, loads text = none →
      attemptStep loads toFloat m c q (CallResult.success text dur)
        = AttemptOutcome.emit
            ⟨m, c, q, PyVal.pstr "error", 0, roundTo 2 dur⟩)
  ∧ (∀ (a : Attempt) rest r,
      attemptStep loads toFloat a.model a.category a.query a.result
          = AttemptOutcome.emit r →
      producerRun loads toFloat (a :: rest)
        = (r :: (producerRun loads toFloat rest).1,
           (producerRun loads toFloat rest).2))
  ∧ (∀ m c q text dur fields v, loads text = some (PyVal.pdict fields) →
      lookupPy "confidence" fields = some v → v ≠ PyVal.pnone →
      pyFloat toFloat v = none →
      attemptStep loads toFloat m c q (CallResult.success text dur)
        = AttemptOutcome.crash)
  ∧ (∀ m c q text dur v, loads text = some v →
      (∀ fields, v ≠ PyVal.pdict fields) →
      attemptStep loads toFloat m c q (CallResult.success text dur)
        = AttemptOutcome.crash)
  ∧ (∀ (a : Attempt) rest,
      attemptStep loads toFloat a.model a.category a.query a.result
          = AttemptOutcome.crash →
      producerRun loads toFloat (a :: rest) = ([], false)) := by
  refine ⟨fun m c q => rfl, ?_, ?_, ?_, ?_, ?_, ?_⟩
  · intro a rest h
    simp [producerRun, h]
  · intro m c q text dur h
    simp [attemptStep, h]
  · intro a rest r h
    simp [producerRun, h]
  · intro m c q text dur fields v h1 h2 h3 h4
    cases v with
    | pnone => exact absurd rfl h3
    | pnum x => exact absurd h4 (by simp [pyFloat])
    | pbool b => exact absurd h4 (by simp [pyFloat])
    | pstr s =>
        simp only [pyFloat] at h4
        simp [attemptStep, h1, h2, pyFloat, h4]
    | plist es => simp [attemptStep, h1, h2, pyFloat]
    | pdict fs => simp [attemptStep, h1, h2, pyFloat]
  · intro m c q text dur v h1 h2
    cases v with
    | pdict fs => exact absurd rfl (h2 fs)
    | pstr s => simp [attemptStep, h1]
    | pnum x => simp [attemptStep, h1]
    | pbool b => simp [attemptStep, h1]
    | pnone => simp [attemptStep, h1]
    | plist es => simp [attemptStep, h1]
  · intro a rest h
    simp [producerRun, h]

/-- Witness for the amended C9 at concrete attempts: a failed call is
skipped and passed over by the run, an invalid-JSON response is logged
with the "error" sentinel and the run continues past it, and a JSON
object with an unconvertible confidence crashes. -/
theorem producer_attempt_recovery_amended_witness :
    attemptStep (fun _ => none) (fun _ => none) "m" "weather" "q1"
        CallResult.failure = AttemptOutcome.skip
  ∧ attemptStep (fun _ => none) (fun _ => none) "m" "weather" "q1"
        (CallResult.success "garbage" 1)
      = AttemptOutcome.emit
          ⟨"m", "weather", "q1", PyVal.pstr "error", 0, roundTo 2 1⟩
  ∧ producerRun (fun _ => none) (fun _ => none)
        [⟨"m", "weather", "q1", CallResult.failure⟩,
         ⟨"m", "weather", "q2", CallResult.success "garbage" 1⟩]
      = ([⟨"m", "weather", "q2", PyVal.pstr "error", 0, roundTo 2 1⟩], true)
  ∧ attemptStep (fun _ => some (PyVal.pdict [("confidence", PyVal.plist [])]))
        (fun _ => none) "m" "weather" "q1" (CallResult.success "resp" 1)
      = AttemptOutcome.crash := by
  refine ⟨?_, ?_, ?_, ?_⟩
  · exact (producer_attempt_recovery_amended _ _).1 "m" "weather" "q1"
  · exact (producer_attempt_recovery_amended _ _).2.2.1
      "m" "weather" "q1" "garbage" 1 rfl
  · have hskip := (producer_attempt_recovery_amended
      (fun _ => none) (fun _ => none)).2.1
      ⟨"m", "weather", "q1", CallResult.failure⟩
      [⟨"m", "weather", "q2", CallResult.success "garbage" 1⟩]
      ((producer_attempt_recovery_amended _ _).1 "m" "weather" "q1")
    have hemit := (producer_attempt_recovery_amended
      (fun _ => none) (fun _ => none)).2.2.2.1
      ⟨"m", "weather", "q2", CallResult.success "garbage" 1⟩ []
      ⟨"m", "weather", "q2", PyVal.pstr "error", 0, roundTo 2 1⟩
      ((producer_attempt_recovery_amended _ _).2.2.1
        "m" "weather" "q2" "garbage" 1 rfl)
    rw [hskip, hemit]
    rfl
  · exact (producer_attempt_recovery_amended _ _).2.2.2.2.1
      "m" "weather" "q1" "resp" 1 [("confidence", PyVal.plist [])]
      (PyVal.plist []) rfl rfl (fun h => PyVal.noConfusion h) rfl

end IntentBench
